import Mathlib

/-!
Verification of the cloudgo key-value store (src/main.go).

The development shallowly embeds the store, the file-backed transaction
logger (its appender `Run` and its replay reader `ReadEvents`), the startup
replay coordinator (the loop of `inizializeTransactionLogger`), and the
`PUT` handler. Go strings are modelled as `String`/`List Char`, the
`map[string]string` as an association list with lookup semantics, `uint64`
arithmetic as `Nat` with an explicit `% 2 ^ 64`, and the channel plumbing of
the replay loop as explicit data flow (see the comments on
`replayCoordinator`).
-/

set_option autoImplicit false

namespace CloudGo

/-! ### Characters and decimal rendering (`fmt.Fprintf "%d"` / `fmt.Sscanf "%d"`) -/

/-- Characters that Go's `fmt` scanning treats as space: Unicode whitespace
except newline; only the ASCII ones are relevant here
(space, tab, vertical tab, form feed, carriage return). -/
def isSp (c : Char) : Bool :=
  c.toNat = 32 || c.toNat = 9 || c.toNat = 11 || c.toNat = 12 || c.toNat = 13

/-- ASCII decimal digit test, as used by `Sscanf`'s `%d` verb. -/
def isDigitCh (c : Char) : Bool :=
  48 ≤ c.toNat && c.toNat ≤ 57

/-- Characters that terminate a `%s`/`%v` token: spaces and newline. -/
def stopCh (c : Char) : Bool :=
  isSp c || c.toNat = 10

/-- The ASCII digit character for a single decimal digit. -/
def digCh : Nat → Char
  | 0 => '0'
  | 1 => '1'
  | 2 => '2'
  | 3 => '3'
  | 4 => '4'
  | 5 => '5'
  | 6 => '6'
  | 7 => '7'
  | 8 => '8'
  | _ => '9'

/-- Numeric value of an ASCII digit character. -/
def dVal (c : Char) : Nat := c.toNat - 48

/-- Fuel-driven decimal rendering of a natural number, most significant digit
first, mirroring the output of Go's `%d` on an unsigned integer. -/
def natCharsAux : Nat → Nat → List Char → List Char
  | 0, _, acc => acc
  | fuel + 1, n, acc =>
      if n < 10 then digCh n :: acc
      else natCharsAux fuel (n / 10) (digCh (n % 10) :: acc)

/-- Decimal rendering of a natural number (`fmt` `%d` output). -/
def natChars (n : Nat) : List Char := natCharsAux (n + 1) n []

/-- Value of a digit string read most-significant-first, as accumulated by a
decimal scanner. -/
def digitsVal (ds : List Char) : Nat :=
  ds.foldl (fun a c => 10 * a + dVal c) 0

/-! ### The Event data model (src/main.go, `type Event struct`)

`EventType` is a Go `byte`; it is modelled as a `Nat`, with the range
constraint `< 256` surfacing as an explicit hypothesis where it matters
(`Sscanf` rejects an out-of-range `%d` for a byte). -/

/-- One durable record: sequence number (`uint64`), operation kind (`byte`),
key and value. -/
structure Event where
  sequence : Nat
  eventType : Nat
  key : String
  value : String
deriving DecidableEq

/-- `EventDelete = 1` (the `iota` enumeration skips 0). -/
def EventDelete : Nat := 1

/-- `EventPut = 2`. -/
def EventPut : Nat := 2

/-- The Event enqueued by `WritePut`: zero sequence, kind `EventPut`. -/
def putEvent (k v : String) : Event := ⟨0, EventPut, k, v⟩

/-- The Event enqueued by `WriteDelete`: zero sequence, kind `EventDelete`,
empty value. -/
def delEvent (k : String) : Event := ⟨0, EventDelete, k, ""⟩

/-! ### Parsing one log line (`fmt.Sscanf(line, "%d\t%d\t%s\t%v", ...)`)

Go's scanning rules: a verb other than `%c` skips leading spaces; a run of
spaces in the format consumes as many input spaces as possible and must
consume at least one or sit at end of input; `%s`/`%v` (for a string) read a
maximal nonempty run of non-space characters; `%d` into an unsigned integer
reads a nonempty digit run and fails on overflow. -/

/-- Errors `Sscanf` can produce on the format used here. -/
inductive ParseErr
  | noNum
  | numOverflow
  | noSep
  | eofTok
deriving DecidableEq

/-- Scan `%d` into an unsigned integer of range `[0, bound)`. -/
def pNat (bound : Nat) (cs : List Char) : Except ParseErr (Nat × List Char) :=
  let cs2 := cs.dropWhile isSp
  let ds := cs2.takeWhile isDigitCh
  if ds.isEmpty then .error .noNum
  else if bound ≤ digitsVal ds then .error .numOverflow
  else .ok (digitsVal ds, cs2.dropWhile isDigitCh)

/-- Consume the format's `\t`: a run of input spaces, at least one unless at
end of input. -/
def pSep (cs : List Char) : Except ParseErr (List Char) :=
  match cs with
  | [] => .ok []
  | c :: rest => if isSp c then .ok ((c :: rest).dropWhile isSp) else .error .noSep

/-- Scan `%s`/`%v` for a string: skip spaces, read a maximal nonempty token. -/
def pTok (cs : List Char) : Except ParseErr (String × List Char) :=
  let cs2 := cs.dropWhile isSp
  let t := cs2.takeWhile (fun c => !stopCh c)
  if t.isEmpty then .error .eofTok
  else .ok (String.mk t, cs2.dropWhile (fun c => !stopCh c))

/-- Parse one log line, mirroring
`fmt.Sscanf(line, "%d\t%d\t%s\t%v", &e.Sequence, &e.EventType, &e.Key, &e.Value)`
in `FileTransactionLogger.ReadEvents`. `Sequence` is a `uint64` and
`EventType` a `byte`, so the scanner bounds them by `2 ^ 64` and `256`. -/
def parseLine (cs : List Char) : Except ParseErr Event := do
  let (seq, cs1) ← pNat (2 ^ 64) cs
  let cs2 ← pSep cs1
  let (et, cs3) ← pNat 256 cs2
  let cs4 ← pSep cs3
  let (k, cs5) ← pTok cs4
  let cs6 ← pSep cs5
  let (v, _) ← pTok cs6
  pure ⟨seq, et, k, v⟩

/-! ### Serializing one log line (`fmt.Fprintf(l.file, "%d\t%d\t%s\t%s\n", ...)`) -/

/-- The body (without the trailing newline) of the line the appender writes
for one Event: `lastSequence`, tab, kind, tab, key, tab, value. -/
def serializeBody (seq etype : Nat) (key value : String) : List Char :=
  natChars seq ++ '\t' :: (natChars etype ++ '\t' :: (key.data ++ '\t' :: value.data))

/-- The appender goroutine started by `FileTransactionLogger.Run`: it drains
the queued Events in order; for each it first increments `lastSequence`
(a `uint64`, hence the `% 2 ^ 64`) and then writes one line. Returns the
final `lastSequence` and the bytes appended to the file. -/
def Run (lastSequence : Nat) : List Event → Nat × List Char
  | [] => (lastSequence, [])
  | e :: es =>
      let seq := (lastSequence + 1) % 2 ^ 64
      let r := Run seq es
      (r.1, (serializeBody seq e.eventType e.key e.value ++ ['\n']) ++ r.2)

/-- Description of the appended bytes following the spec's words (§4.2): one
line per Event in drain order, each line `sequence TAB kind TAB key TAB value
NEWLINE` with the sequence numbers dense and contiguous starting at
`lastSequence + 1`, ignoring the `Sequence` field carried by the queued
Event. Stated against `Run` in the C6 theorem. -/
def linesFlat (lastSequence : Nat) : List Event → List Char
  | [] => []
  | e :: es =>
      (serializeBody (lastSequence + 1) e.eventType e.key e.value ++ ['\n'])
        ++ linesFlat (lastSequence + 1) es

/-- The same lines as `linesFlat`, but as a list of line bodies (what
`bufio.Scanner` will hand back). -/
def bodiesList (lastSequence : Nat) : List Event → List (List Char)
  | [] => []
  | e :: es =>
      serializeBody (lastSequence + 1) e.eventType e.key e.value
        :: bodiesList (lastSequence + 1) es

/-- The Events of a queue with the sequence numbers the appender assigns
(dense from `lastSequence + 1`); this is what replay parses back. -/
def withSeqs (lastSequence : Nat) : List Event → List Event
  | [] => []
  | e :: es => ⟨lastSequence + 1, e.eventType, e.key, e.value⟩ :: withSeqs (lastSequence + 1) es

/-! ### Splitting the file into lines (`bufio.Scanner` with `ScanLines`) -/

/-- Split a character stream at every newline (the newline is dropped). -/
def splitNl : List Char → List (List Char)
  | [] => [[]]
  | c :: rest =>
      if c = '\n' then [] :: splitNl rest
      else
        match splitNl rest with
        | [] => [[c]]
        | l :: ls => (c :: l) :: ls

/-- `ScanLines` drops one trailing carriage return from each line. -/
def stripCR (l : List Char) : List Char :=
  if l.getLast? = some '\r' then l.dropLast else l

/-- The tokens `bufio.Scanner` produces for a file: newline-separated lines,
with no empty final token after a terminating newline, each stripped of a
trailing carriage return. -/
def fileLines (cs : List Char) : List (List Char) :=
  let parts := splitNl cs
  let parts2 := if parts.getLast? = some [] then parts.dropLast else parts
  parts2.map stripCR

/-- The text of `io.EOF.Error()`; `ReadEvents` skips lines equal to it. -/
def eofChars : List Char := ['E', 'O', 'F']

/-! ### Replay reading (`FileTransactionLogger.ReadEvents`) -/

/-- Errors the replay reader emits on its error channel. -/
inductive RErr
  | parseFail (line : List Char) (pe : ParseErr)
  | seqNotIncreasing (line : List Char)
deriving DecidableEq

/-- The goroutine of `FileTransactionLogger.ReadEvents`: scan the lines in
order; skip a line equal to `"EOF"`; parse each other line; stop with an
error on a parse failure or when the parsed sequence does not strictly
exceed the running `lastSequence`; otherwise advance `lastSequence` and emit
the Event. Returns the emitted Events and the error, if any, sent on the
error channel. -/
def ReadEvents (lastSequence : Nat) : List (List Char) → List Event × Option RErr
  | [] => ([], none)
  | l :: ls =>
      if l = eofChars then ReadEvents lastSequence ls
      else
        match parseLine l with
        | .error pe => ([], some (.parseFail l pe))
        | .ok e =>
            if e.sequence ≤ lastSequence then ([], some (.seqNotIncreasing l))
            else
              let r := ReadEvents e.sequence ls
              (e :: r.1, r.2)

/-- The running `lastSequence` after the reader has accepted `evs` starting
from `lastSequence`. -/
def lastAfter (lastSequence : Nat) : List Event → Nat
  | [] => lastSequence
  | e :: es => lastAfter e.sequence es

/-! ### The store (src/main.go, `var store`, `Put`, `Get`, `Delete`) -/

/-- The `map[string]string` of the store, as an association list with unique
keys; all operations are stated through `mapGet`. -/
abbrev Store : Type := List (String × String)

/-- Map lookup: `value, ok := store.m[key]`. -/
def mapGet : Store → String → Option String
  | [], _ => none
  | (k2, v) :: rest, k => if k2 = k then some v else mapGet rest k

/-- Map removal: `delete(store.m, key)`. -/
def mapDelete : Store → String → Store
  | [], _ => []
  | (k2, v) :: rest, k => if k2 = k then mapDelete rest k else (k2, v) :: mapDelete rest k

/-- Map assignment: `store.m[key] = value`. -/
def mapPut (s : Store) (k v : String) : Store := mapDelete s k ++ [(k, v)]

/-- Errors surfaced inside the process. `readFail` wraps what arrives on the
replay error channel; `unknownEventType` is the replay loop's `default`
branch; `noSuchKey` is `ErrorNoSuchKey`. -/
inductive GoErr
  | noSuchKey
  | unknownEventType (t : Nat)
  | readFail (re : RErr)
deriving DecidableEq

/-- `func Put(key, value string) error`: assign and return `nil`. The pair
carries the store state after the call next to the returned error. -/
def Put (s : Store) (k v : String) : Except GoErr Unit × Store :=
  (.ok (), mapPut s k v)

/-- `func Get(key string) (string, error)`. -/
def Get (s : Store) (k : String) : Except GoErr String :=
  match mapGet s k with
  | none => .error .noSuchKey
  | some v => .ok v

/-- What `Delete` did besides returning: nothing (key absent), or it removed
the key and enqueued a `WriteDelete` Event (appender running), or it removed
the key and then blocked forever sending on the logger's nil events channel
(appender not yet started by `Run`). -/
inductive DelRes
  | notFound
  | removedLogged (ev : Event)
  | removedBlocked
deriving DecidableEq

/-- `func Delete(key string) error`: return `ErrorNoSuchKey` if the key is
absent; otherwise remove it and call `logger.WriteDelete(key)`.
`runActive` records whether `FileTransactionLogger.Run` has been called:
before it, `l.events` is nil and the send in `WriteDelete` blocks forever. -/
def Delete (runActive : Bool) (s : Store) (k : String) : Store × DelRes :=
  match mapGet s k with
  | none => (s, .notFound)
  | some _ =>
      (mapDelete s k, if runActive then .removedLogged (delEvent k) else .removedBlocked)

/-! ### The replay coordinator (`inizializeTransactionLogger`)

Channel timing, justifying the deterministic shape below: the reader's event
channel is unbuffered and its error channel has capacity 1; the reader
goroutine sends an error only after it has stopped emitting events, then
closes the error channel and finally the events channel. So while events
remain, the coordinator's `select` can only fire on the events channel, and
the loop applies the events in order. After both channels close, exactly one
more `select` runs with both cases ready, and Go chooses between them
pseudo-randomly: that coin is the `sched` argument. Drawing the closed
events channel yields the zero `Event`, whose `EventType` 0 falls into the
`default` branch and fabricates an `unknown event type: 0` error. -/

/-- Result of applying one received Event inside the replay loop's `switch`. -/
inductive StepRes
  | ok (s : Store)
  | err (e : GoErr) (s : Store)
  | blockedW (s : Store)
deriving DecidableEq

/-- One iteration's `switch e.EventType`: `EventPut` calls `Put`,
`EventDelete` calls `Delete` (with the appender not yet running), anything
else sets the `unknown event type` error. -/
def applyEvent (s : Store) (e : Event) : StepRes :=
  if e.eventType = EventPut then
    let p := Put s e.key e.value
    match p.1 with
    | .ok _ => .ok p.2
    | .error er => .err er p.2
  else if e.eventType = EventDelete then
    match Delete false s e.key with
    | (s2, .notFound) => .err .noSuchKey s2
    | (s2, .removedBlocked) => .blockedW s2
    | (s2, .removedLogged _) => .blockedW s2
  else .err (.unknownEventType e.eventType) s

/-- How the event-consuming phase of the replay loop ends. -/
inductive LoopRes
  | done (s : Store)
  | aborted (e : GoErr) (s : Store)
  | blockedL (s : Store)
deriving DecidableEq

/-- The deterministic phase of the replay loop: receive and apply the
streamed Events in order until they run out, an application returns an
error, or an application blocks. -/
def replayLoop (s : Store) : List Event → LoopRes
  | [] => .done s
  | e :: es =>
      match applyEvent s e with
      | .ok s2 => replayLoop s2 es
      | .err er s2 => .aborted er s2
      | .blockedW s2 => .blockedL s2

/-- Overall outcome of `inizializeTransactionLogger`: `success` means the
loop ended with a nil error and `logger.Run()` was called; `abort` means the
function returned a non-nil error (startup fails in `main`); `blocked` means
the loop never terminates. Each carries the store contents at that point. -/
inductive Outcome
  | success (s : Store)
  | abort (e : GoErr) (s : Store)
  | blocked (s : Store)
deriving DecidableEq

/-- The replay coordinator: run the loop on the streamed Events `evs`, with
`terr` the error the reader left in the buffered error channel (none on a
clean close) and `sched` the final `select`'s pseudo-random draw (`true` =
the error channel, `false` = the closed events channel). -/
def replayCoordinator (s : Store) (evs : List Event) (terr : Option GoErr)
    (sched : Bool) : Outcome :=
  match replayLoop s evs with
  | .blockedL s2 => .blocked s2
  | .aborted er s2 => .abort er s2
  | .done s2 =>
      match terr with
      | some er => .abort (if sched then er else .unknownEventType 0) s2
      | none => if sched then .success s2 else .abort (.unknownEventType 0) s2

/-! ### The public write path (PUT handler and store `Delete`) -/

/-- A mutating operation entering through the public write path: a `PUT`
request (store `Put` then `logger.WritePut`) or a call to the store
`Delete`. -/
inductive Op
  | put (k v : String)
  | del (k : String)
deriving DecidableEq

/-- Whether an `Op` is a `put` of the given key. -/
def putsKey : Op → String → Bool
  | .put k2 _, k => k2 == k
  | .del _, _ => false

/-- A token `Sscanf` can read back intact: nonempty, no spaces, no newline. -/
def goodTokB (s : String) : Bool :=
  !s.data.isEmpty && s.data.all (fun c => !stopCh c)

/-- An operation whose logged fields are `goodTokB` tokens. -/
def goodOpB : Op → Bool
  | .put k v => goodTokB k && goodTokB v
  | .del _ => true

/-- Run a sequence of operations through the public write path at steady
state (the appender is live, so `WriteDelete` enqueues instead of blocking):
returns the final store and the Events enqueued to the logger, in order. -/
def writePath (s : Store) : List Op → Store × List Event
  | [] => (s, [])
  | .put k v :: ops =>
      let p := Put s k v
      match p.1 with
      | .ok _ =>
          let r := writePath p.2 ops
          (r.1, putEvent k v :: r.2)
      | .error _ => writePath p.2 ops
  | .del k :: ops =>
      match Delete true s k with
      | (s2, .removedLogged ev) =>
          let r := writePath s2 ops
          (r.1, ev :: r.2)
      | (s2, _) => writePath s2 ops

/-- Replay's effect of a list of Put Events: fold `mapPut` over them. -/
def foldPuts (s : Store) (evs : List Event) : Store :=
  evs.foldl (fun st e => mapPut st e.key e.value) s

/-- The full restart pipeline for the log produced by a sequence of write
operations: run them from an empty store and empty log, append the enqueued
Events through the file appender, split the file into lines, replay-read
them, and feed the result to the coordinator over a fresh empty store. -/
def pipeline (ops : List Op) (sched : Bool) : Outcome :=
  let log := (writePath [] ops).2
  let file := (Run 0 log).2
  let r := ReadEvents 0 (fileLines file)
  replayCoordinator [] r.1 (r.2.map GoErr.readFail) sched

/-! ### The PUT handler (`keyValuePutHandler`) -/

/-- The handler's externally visible effect: which branch it took, the store
it left behind, and the Events it enqueued to the logger. -/
inductive HandlerOut
  | bodyError (s : Store)
  | putError (s : Store)
  | created (s : Store) (logged : List Event)
deriving DecidableEq

/-- `keyValuePutHandler`: read the body (its result is the `body` argument);
on a read error respond 500 without touching store or logger; otherwise call
the store `Put`, respond 500 on a put error, and on success call
`logger.WritePut(key, value)` and respond 201. -/
def keyValuePutHandler (body : Except String String) (key : String) (s : Store) :
    HandlerOut :=
  match body with
  | .error _ => .bodyError s
  | .ok v =>
      let p := Put s key v
      match p.1 with
      | .error _ => .putError p.2
      | .ok _ => .created p.2 [putEvent key v]

/-- HTTP status written by each handler branch. -/
def statusOf : HandlerOut → Nat
  | .bodyError _ => 500
  | .putError _ => 500
  | .created _ _ => 201

/-- Whether the handler took the store-put-error branch. -/
def isPutError : HandlerOut → Bool
  | .putError _ => true
  | _ => false

/-! ## Lemmas -/

theorem dVal_digCh {d : Nat} (h : d < 10) : dVal (digCh d) = d := by
  interval_cases d <;> decide

theorem isDigitCh_digCh {d : Nat} (h : d < 10) : isDigitCh (digCh d) = true := by
  interval_cases d <;> decide

theorem not_isSp_of_isDigitCh {c : Char} (h : isDigitCh c = true) : isSp c = false := by
  simp only [isDigitCh, Bool.and_eq_true, decide_eq_true_eq] at h
  simp only [isSp, Bool.or_eq_false_iff, decide_eq_false_iff_not]
  omega

theorem not_stopCh_of_isDigitCh {c : Char} (h : isDigitCh c = true) : stopCh c = false := by
  simp only [isDigitCh, Bool.and_eq_true, decide_eq_true_eq] at h
  simp only [stopCh, isSp, Bool.or_eq_false_iff, decide_eq_false_iff_not]
  omega

theorem natCharsAux_eq :
    ∀ (fuel n : Nat) (acc : List Char), 0 < n → n < 10 ^ fuel →
      natCharsAux fuel n acc = ((Nat.digits 10 n).map digCh).reverse ++ acc := by
  intro fuel
  induction fuel with
  | zero => intro n acc hn hlt; simp at hlt; omega
  | succ fuel ih =>
      intro n acc hn hlt
      by_cases h10 : n < 10
      · have hdig : Nat.digits 10 n = [n] := by
          rw [Nat.digits_def' (by norm_num) hn]
          have h1 : n / 10 = 0 := Nat.div_eq_of_lt h10
          have h2 : n % 10 = n := Nat.mod_eq_of_lt h10
          simp [h1, h2]
        simp [natCharsAux, h10, hdig]
      · have hdiv_pos : 0 < n / 10 := Nat.div_pos (by omega) (by norm_num)
        have hdiv_lt : n / 10 < 10 ^ fuel := by
          rw [Nat.div_lt_iff_lt_mul (by norm_num)]
          calc n < 10 ^ (fuel + 1) := hlt
            _ = 10 ^ fuel * 10 := by ring
        have hdig : Nat.digits 10 n = n % 10 :: Nat.digits 10 (n / 10) :=
          Nat.digits_def' (by norm_num) hn
        rw [show natCharsAux (fuel + 1) n acc =
              natCharsAux fuel (n / 10) (digCh (n % 10) :: acc) by
            simp [natCharsAux, h10]]
        rw [ih (n / 10) (digCh (n % 10) :: acc) hdiv_pos hdiv_lt, hdig]
        simp [List.append_assoc]

theorem lt_ten_pow_succ (n : Nat) : n < 10 ^ (n + 1) := by
  calc n < 2 ^ n := Nat.lt_two_pow n
    _ ≤ 10 ^ n := Nat.pow_le_pow_left (by norm_num) n
    _ ≤ 10 ^ (n + 1) := Nat.pow_le_pow_right (by norm_num) (Nat.le_succ n)

theorem natChars_eq {n : Nat} (hn : 0 < n) :
    natChars n = ((Nat.digits 10 n).map digCh).reverse := by
  have := natCharsAux_eq (n + 1) n [] hn (lt_ten_pow_succ n)
  simpa [natChars] using this

theorem natChars_zero : natChars 0 = ['0'] := rfl

theorem natChars_digits {n : Nat} : ∀ c ∈ natChars n, isDigitCh c = true := by
  rcases Nat.eq_zero_or_pos n with h | h
  · subst h; intro c hc; simp [natChars_zero] at hc; subst hc; decide
  · rw [natChars_eq h]
    intro c hc
    rw [List.mem_reverse] at hc
    rcases List.mem_map.mp hc with ⟨d, hd, rfl⟩
    exact isDigitCh_digCh (Nat.digits_lt_base (by norm_num) hd)

theorem natChars_ne_nil {n : Nat} : natChars n ≠ [] := by
  rcases Nat.eq_zero_or_pos n with h | h
  · subst h; simp [natChars_zero]
  · rw [natChars_eq h]
    simp [Nat.digits_ne_nil_iff_ne_zero.mpr (Nat.pos_iff_ne_zero.mp h)]

theorem foldl_digits (l : List Nat) (hl : ∀ d ∈ l, d < 10) :
    ∀ a : Nat,
      List.foldl (fun x c => 10 * x + dVal c) a ((l.map digCh).reverse)
        = a * 10 ^ l.length + Nat.ofDigits 10 l := by
  induction l with
  | nil => intro a; simp
  | cons d l ih =>
      intro a
      have hd : d < 10 := hl d (List.mem_cons_self d l)
      have hl2 : ∀ x ∈ l, x < 10 := fun x hx => hl x (List.mem_cons_of_mem d hx)
      simp only [List.map_cons, List.reverse_cons, List.foldl_append, List.foldl_cons,
        List.foldl_nil]
      rw [ih hl2 a, dVal_digCh hd, Nat.ofDigits_cons]
      simp only [List.length_cons, pow_succ]
      ring

theorem digitsVal_natChars (n : Nat) : digitsVal (natChars n) = n := by
  rcases Nat.eq_zero_or_pos n with h | h
  · subst h; decide
  · rw [natChars_eq h]
    unfold digitsVal
    rw [foldl_digits _ (fun d hd => Nat.digits_lt_base (by norm_num) hd) 0]
    simpa using (Nat.ofDigits_digits 10 n)

/-! ### takeWhile / dropWhile helpers -/

theorem takeWhile_cons_false {α : Type} {p : α → Bool} {y : α} {ys : List α}
    (h : p y = false) : (y :: ys).takeWhile p = [] := by
  simp [List.takeWhile_cons, h]

theorem dropWhile_cons_false {α : Type} {p : α → Bool} {y : α} {ys : List α}
    (h : p y = false) : (y :: ys).dropWhile p = y :: ys := by
  simp [List.dropWhile_cons, h]

theorem takeWhile_append_all {α : Type} {p : α → Bool} :
    ∀ {xs ys : List α}, (∀ c ∈ xs, p c = true) →
      (xs ++ ys).takeWhile p = xs ++ ys.takeWhile p := by
  intro xs
  induction xs with
  | nil => intro ys _; simp
  | cons x xs ih =>
      intro ys h
      have hx : p x = true := h x (List.mem_cons_self x xs)
      simp [List.takeWhile_cons, hx, ih (fun c hc => h c (List.mem_cons_of_mem x hc))]

theorem dropWhile_append_all {α : Type} {p : α → Bool} :
    ∀ {xs ys : List α}, (∀ c ∈ xs, p c = true) →
      (xs ++ ys).dropWhile p = ys.dropWhile p := by
  intro xs
  induction xs with
  | nil => intro ys _; simp
  | cons x xs ih =>
      intro ys h
      have hx : p x = true := h x (List.mem_cons_self x xs)
      simp [List.dropWhile_cons, hx, ih (fun c hc => h c (List.mem_cons_of_mem x hc))]

theorem takeWhile_all {α : Type} {p : α → Bool} {xs : List α}
    (h : ∀ c ∈ xs, p c = true) : xs.takeWhile p = xs := by
  have h2 := @takeWhile_append_all α p xs [] h
  simpa using h2

theorem dropWhile_all {α : Type} {p : α → Bool} {xs : List α}
    (h : ∀ c ∈ xs, p c = true) : xs.dropWhile p = [] := by
  have h2 := @dropWhile_append_all α p xs [] h
  simpa using h2

theorem mem_of_getLast?_spec {α : Type} : ∀ {l : List α} {a : α}, l.getLast? = some a → a ∈ l := by
  intro l
  induction l with
  | nil => intro a h; simp at h
  | cons x xs ih =>
      intro a h
      cases xs with
      | nil => simp at h; subst h; exact List.mem_cons_self _ _
      | cons y ys =>
          rw [List.getLast?_cons_cons] at h
          exact List.mem_cons_of_mem x (ih h)

/-! ### Good tokens -/

theorem goodTok_ne_nil {k : String} (h : goodTokB k = true) : k.data ≠ [] := by
  intro hnil
  simp [goodTokB, hnil] at h

theorem goodTok_not_stop {k : String} (h : goodTokB k = true) :
    ∀ c ∈ k.data, stopCh c = false := by
  simp only [goodTokB, Bool.and_eq_true, List.all_eq_true, Bool.not_eq_true'] at h
  exact h.2

theorem not_isSp_of_not_stop {c : Char} (h : stopCh c = false) : isSp c = false := by
  simp only [stopCh, Bool.or_eq_false_iff] at h
  exact h.1

theorem not_nl_of_not_stop {c : Char} (h : stopCh c = false) : c ≠ '\n' := by
  intro hc
  subst hc
  exact absurd h (by decide)

theorem not_cr_of_not_stop {c : Char} (h : stopCh c = false) : c ≠ '\r' := by
  intro hc
  subst hc
  exact absurd h (by decide)

/-! ### Parsing a serialized line back (the round trip) -/

theorem dropWhile_isSp_natChars {n : Nat} {ys : List Char} :
    (natChars n ++ ys).dropWhile isSp = natChars n ++ ys := by
  cases h : natChars n with
  | nil => exact absurd h natChars_ne_nil
  | cons c cs =>
      have hc : isDigitCh c = true := by
        have hm : c ∈ natChars n := by rw [h]; exact List.mem_cons_self c cs
        exact natChars_digits c hm
      rw [List.cons_append]
      exact dropWhile_cons_false (not_isSp_of_isDigitCh hc)

theorem dropWhile_isSp_goodTok {k : String} {ys : List Char} (hk : goodTokB k = true) :
    (k.data ++ ys).dropWhile isSp = k.data ++ ys := by
  cases h : k.data with
  | nil => exact absurd h (goodTok_ne_nil hk)
  | cons c cs =>
      have hc : stopCh c = false := by
        have hm : c ∈ k.data := by rw [h]; exact List.mem_cons_self c cs
        exact goodTok_not_stop hk c hm
      rw [List.cons_append]
      exact dropWhile_cons_false (not_isSp_of_not_stop hc)

theorem pNat_head {n bound : Nat} {y : Char} {ys : List Char}
    (hn : n < bound) (hy : isDigitCh y = false) :
    pNat bound (natChars n ++ y :: ys) = .ok (n, y :: ys) := by
  have hdigits : ∀ c ∈ natChars n, isDigitCh c = true := natChars_digits
  have hdropSp : (natChars n ++ y :: ys).dropWhile isSp = natChars n ++ y :: ys :=
    dropWhile_isSp_natChars
  have htake : (natChars n ++ y :: ys).takeWhile isDigitCh = natChars n := by
    rw [takeWhile_append_all hdigits, takeWhile_cons_false hy, List.append_nil]
  have hdrop : (natChars n ++ y :: ys).dropWhile isDigitCh = y :: ys := by
    rw [dropWhile_append_all hdigits, dropWhile_cons_false hy]
  have hne : (natChars n).isEmpty = false := by
    cases h : natChars n with
    | nil => exact absurd h natChars_ne_nil
    | cons c cs => rfl
  simp only [pNat, hdropSp, htake, hdrop, hne, digitsVal_natChars, Bool.false_eq_true,
    if_false, if_neg (Nat.not_le_of_lt hn)]

theorem pSep_tab {xs : List Char} : pSep ('\t' :: xs) = .ok (xs.dropWhile isSp) := by
  have h : isSp '\t' = true := by decide
  simp [pSep, h, List.dropWhile_cons]

theorem string_mk_data (s : String) : String.mk s.data = s := by
  cases s
  rfl

theorem pTok_head {k : String} {y : Char} {ys : List Char}
    (hk : goodTokB k = true) (hy : stopCh y = true) :
    pTok (k.data ++ y :: ys) = .ok (k, y :: ys) := by
  have hnot : ∀ c ∈ k.data, (!stopCh c) = true := by
    intro c hc
    simp [goodTok_not_stop hk c hc]
  have hdropSp : (k.data ++ y :: ys).dropWhile isSp = k.data ++ y :: ys :=
    dropWhile_isSp_goodTok hk
  have hyf : (fun c => !stopCh c) y = false := by simp [hy]
  have htake : (k.data ++ y :: ys).takeWhile (fun c => !stopCh c) = k.data := by
    rw [takeWhile_append_all hnot,
      @takeWhile_cons_false Char (fun c => !stopCh c) y ys hyf, List.append_nil]
  have hdrop : (k.data ++ y :: ys).dropWhile (fun c => !stopCh c) = y :: ys := by
    rw [dropWhile_append_all hnot,
      @dropWhile_cons_false Char (fun c => !stopCh c) y ys hyf]
  have hne : k.data.isEmpty = false := by
    cases h : k.data with
    | nil => exact absurd h (goodTok_ne_nil hk)
    | cons c cs => rfl
  have hne2 : (k.data ++ y :: ys).isEmpty = false := by
    cases h : k.data ++ y :: ys with
    | nil => simp at h
    | cons c cs => rfl
  simp only [pTok, hdropSp, htake, hdrop]
  simp only [hne, Bool.false_eq_true, if_false, string_mk_data]

theorem pTok_all {v : String} (hv : goodTokB v = true) :
    pTok v.data = .ok (v, []) := by
  have hnot : ∀ c ∈ v.data, (!stopCh c) = true := by
    intro c hc
    simp [goodTok_not_stop hv c hc]
  have hdropSp : v.data.dropWhile isSp = v.data := by
    have h2 := @dropWhile_isSp_goodTok v [] hv
    simpa using h2
  have htake : v.data.takeWhile (fun c => !stopCh c) = v.data := takeWhile_all hnot
  have hdrop : v.data.dropWhile (fun c => !stopCh c) = [] := dropWhile_all hnot
  have hne : v.data.isEmpty = false := by
    cases h : v.data with
    | nil => exact absurd h (goodTok_ne_nil hv)
    | cons c cs => rfl
  simp only [pTok, hdropSp, htake, hdrop, hne, Bool.false_eq_true, if_false, string_mk_data]

theorem exbind_ok {ε α β : Type} (a : α) (f : α → Except ε β) :
    (Except.ok a >>= f : Except ε β) = f a := rfl

theorem parseLine_serializeBody {seq etype : Nat} {k v : String}
    (h1 : seq < 2 ^ 64) (h2 : etype < 256)
    (hk : goodTokB k = true) (hv : goodTokB v = true) :
    parseLine (serializeBody seq etype k v) = .ok ⟨seq, etype, k, v⟩ := by
  have t1 : pNat (2 ^ 64) (serializeBody seq etype k v)
      = .ok (seq, '\t' :: (natChars etype ++ '\t' :: (k.data ++ '\t' :: v.data))) :=
    pNat_head h1 (by decide)
  have t2 : pSep ('\t' :: (natChars etype ++ '\t' :: (k.data ++ '\t' :: v.data)))
      = .ok (natChars etype ++ '\t' :: (k.data ++ '\t' :: v.data)) := by
    rw [pSep_tab, dropWhile_isSp_natChars]
  have t3 : pNat 256 (natChars etype ++ '\t' :: (k.data ++ '\t' :: v.data))
      = .ok (etype, '\t' :: (k.data ++ '\t' :: v.data)) :=
    pNat_head h2 (by decide)
  have t4 : pSep ('\t' :: (k.data ++ '\t' :: v.data)) = .ok (k.data ++ '\t' :: v.data) := by
    rw [pSep_tab, dropWhile_isSp_goodTok hk]
  have t5 : pTok (k.data ++ '\t' :: v.data) = .ok (k, '\t' :: v.data) :=
    pTok_head hk (by decide)
  have t6 : pSep ('\t' :: v.data) = .ok v.data := by
    rw [pSep_tab]
    have h2 := @dropWhile_isSp_goodTok v [] hv
    simp only [List.append_nil] at h2
    rw [h2]
  have t7 : pTok v.data = .ok (v, []) := pTok_all hv
  simp only [parseLine, t1, t2, t3, t4, t5, t6, t7, exbind_ok]
  rfl

/-! ### Character inventory of a serialized line -/

theorem serializeBody_chars {seq etype : Nat} {k v : String} :
    ∀ c ∈ serializeBody seq etype k v,
      isDigitCh c = true ∨ c = '\t' ∨ c ∈ k.data ∨ c ∈ v.data := by
  intro c hc
  simp only [serializeBody, List.mem_append, List.mem_cons] at hc
  rcases hc with h | rfl | h | rfl | h | rfl | h
  · exact Or.inl (natChars_digits c h)
  · exact Or.inr (Or.inl rfl)
  · exact Or.inl (natChars_digits c h)
  · exact Or.inr (Or.inl rfl)
  · exact Or.inr (Or.inr (Or.inl h))
  · exact Or.inr (Or.inl rfl)
  · exact Or.inr (Or.inr (Or.inr h))

theorem serializeBody_no_ctrl {seq etype : Nat} {k v : String}
    (hk : goodTokB k = true) (hv : goodTokB v = true) :
    '\n' ∉ serializeBody seq etype k v ∧ '\r' ∉ serializeBody seq etype k v := by
  constructor
  · intro hmem
    rcases serializeBody_chars '\n' hmem with h | h | h | h
    · exact absurd h (by decide)
    · exact absurd h (by decide)
    · exact absurd rfl (not_nl_of_not_stop (goodTok_not_stop hk _ h))
    · exact absurd rfl (not_nl_of_not_stop (goodTok_not_stop hv _ h))
  · intro hmem
    rcases serializeBody_chars '\r' hmem with h | h | h | h
    · exact absurd h (by decide)
    · exact absurd h (by decide)
    · exact absurd rfl (not_cr_of_not_stop (goodTok_not_stop hk _ h))
    · exact absurd rfl (not_cr_of_not_stop (goodTok_not_stop hv _ h))

theorem serializeBody_ne_eof {seq etype : Nat} {k v : String} :
    serializeBody seq etype k v ≠ eofChars := by
  intro h
  obtain ⟨c, cs, h2⟩ : ∃ c cs, natChars seq = c :: cs := by
    cases hh : natChars seq with
    | nil => exact absurd hh natChars_ne_nil
    | cons c cs => exact ⟨c, cs, rfl⟩
  have hc : isDigitCh c = true := by
    have hm : c ∈ natChars seq := by rw [h2]; exact List.mem_cons_self c cs
    exact natChars_digits c hm
  unfold serializeBody at h
  rw [h2, List.cons_append, show eofChars = 'E' :: ['O', 'F'] from rfl] at h
  injection h with h1 _
  rw [h1] at hc
  exact absurd hc (by decide)

/-! ### File line splitting on appender output -/

theorem stripCR_eq {l : List Char} (h : '\r' ∉ l) : stripCR l = l := by
  unfold stripCR
  by_cases hl : l.getLast? = some '\r'
  · exact absurd (mem_of_getLast?_spec hl) h
  · simp [hl]

theorem splitNl_body {body : List Char} (h : '\n' ∉ body) :
    ∀ rest, splitNl (body ++ '\n' :: rest) = body :: splitNl rest := by
  induction body with
  | nil => intro rest; simp [splitNl]
  | cons c cs ih =>
      intro rest
      have hc : ¬(c = '\n') := by
        intro hcc
        subst hcc
        exact h (List.mem_cons_self _ _)
      have hcs : '\n' ∉ cs := fun hm => h (List.mem_cons_of_mem c hm)
      rw [List.cons_append]
      simp only [splitNl, if_neg hc, ih hcs rest]

theorem splitNl_linesFlat :
    ∀ (evs : List Event) (last : Nat),
      (∀ e ∈ evs, goodTokB e.key = true ∧ goodTokB e.value = true) →
      splitNl (linesFlat last evs) = bodiesList last evs ++ [[]] := by
  intro evs
  induction evs with
  | nil => intro last _; rfl
  | cons e es ih =>
      intro last h
      have he := h e (List.mem_cons_self e es)
      have hnl : '\n' ∉ serializeBody (last + 1) e.eventType e.key e.value :=
        (serializeBody_no_ctrl he.1 he.2).1
      simp only [linesFlat, bodiesList, List.append_assoc, List.singleton_append,
        List.cons_append]
      rw [splitNl_body hnl]
      simp only [List.nil_append]
      rw [ih (last + 1) (fun x hx => h x (List.mem_cons_of_mem e hx))]

theorem stripCR_bodiesList :
    ∀ (evs : List Event) (last : Nat),
      (∀ e ∈ evs, goodTokB e.key = true ∧ goodTokB e.value = true) →
      (bodiesList last evs).map stripCR = bodiesList last evs := by
  intro evs
  induction evs with
  | nil => intro last _; rfl
  | cons e es ih =>
      intro last h
      have he := h e (List.mem_cons_self e es)
      have hcr : '\r' ∉ serializeBody (last + 1) e.eventType e.key e.value :=
        (serializeBody_no_ctrl he.1 he.2).2
      simp only [bodiesList, List.map_cons, stripCR_eq hcr,
        ih (last + 1) (fun x hx => h x (List.mem_cons_of_mem e hx))]

theorem fileLines_linesFlat (evs : List Event) (last : Nat)
    (h : ∀ e ∈ evs, goodTokB e.key = true ∧ goodTokB e.value = true) :
    fileLines (linesFlat last evs) = bodiesList last evs := by
  unfold fileLines
  rw [splitNl_linesFlat evs last h]
  simp only [List.getLast?_concat, List.dropLast_concat, if_pos rfl]
  exact stripCR_bodiesList evs last h

/-! ### The appender writes dense sequences -/

theorem Run_spec :
    ∀ (evs : List Event) (last : Nat), last + evs.length < 2 ^ 64 →
      Run last evs = (last + evs.length, linesFlat last evs) := by
  intro evs
  induction evs with
  | nil => intro last _; simp [Run, linesFlat]
  | cons e es ih =>
      intro last h
      have hlen : last + 1 + es.length < 2 ^ 64 := by
        simp only [List.length_cons] at h; omega
      have hmod : (last + 1) % 2 ^ 64 = last + 1 := Nat.mod_eq_of_lt (by omega)
      simp only [Run, hmod, ih (last + 1) hlen, linesFlat, List.length_cons,
        Prod.mk.injEq]
      exact ⟨by omega, trivial⟩

/-! ### Replay reading of an appender-written log -/

theorem ReadEvents_bodiesList :
    ∀ (evs : List Event) (last : Nat), last + evs.length < 2 ^ 64 →
      (∀ e ∈ evs, e.eventType < 256 ∧ goodTokB e.key = true ∧ goodTokB e.value = true) →
      ReadEvents last (bodiesList last evs) = (withSeqs last evs, none) := by
  intro evs
  induction evs with
  | nil => intro last _ _; rfl
  | cons e es ih =>
      intro last h1 h2
      have he := h2 e (List.mem_cons_self e es)
      have hseq : last + 1 < 2 ^ 64 := by simp only [List.length_cons] at h1; omega
      have hparse : parseLine (serializeBody (last + 1) e.eventType e.key e.value)
          = .ok ⟨last + 1, e.eventType, e.key, e.value⟩ :=
        parseLine_serializeBody hseq he.1 he.2.1 he.2.2
      have hne : ¬(serializeBody (last + 1) e.eventType e.key e.value = eofChars) :=
        serializeBody_ne_eof
      have hguard : ¬(last + 1 ≤ last) := by omega
      simp only [bodiesList, ReadEvents, if_neg hne, hparse, if_neg hguard, withSeqs]
      rw [ih (last + 1) (by simp only [List.length_cons] at h1; omega)
        (fun x hx => h2 x (List.mem_cons_of_mem e hx))]

/-! ### Reading a longer log: prefix decomposition -/

theorem ReadEvents_split :
    ∀ (pre : List (List Char)) (last : Nat) (evs : List Event),
      ReadEvents last pre = (evs, none) →
      ∀ more, ReadEvents last (pre ++ more) =
        (evs ++ (ReadEvents (lastAfter last evs) more).1,
          (ReadEvents (lastAfter last evs) more).2) := by
  intro pre
  induction pre with
  | nil =>
      intro last evs h more
      simp only [ReadEvents] at h
      injection h with h1 h2
      subst h1
      simp [lastAfter]
  | cons l ls ih =>
      intro last evs h more
      by_cases heof : l = eofChars
      · simp only [ReadEvents, if_pos heof] at h
        rw [List.cons_append]
        simp only [ReadEvents, if_pos heof]
        exact ih last evs h more
      · cases hp : parseLine l with
        | error pe =>
            simp only [ReadEvents, if_neg heof, hp] at h
            injection h with h1 h2
            exact Option.noConfusion h2
        | ok e =>
            by_cases hseq : e.sequence ≤ last
            · simp only [ReadEvents, if_neg heof, hp, if_pos hseq] at h
              injection h with h1 h2
              exact Option.noConfusion h2
            · simp only [ReadEvents, if_neg heof, hp, if_neg hseq] at h
              injection h with h1 h2
              subst h1
              have hr : ReadEvents e.sequence ls = ((ReadEvents e.sequence ls).1, none) := by
                rw [← h2]
              have hmore := ih e.sequence (ReadEvents e.sequence ls).1 hr more
              rw [List.cons_append]
              simp only [ReadEvents, if_neg heof, hp, if_neg hseq]
              rw [hmore]
              simp [lastAfter, List.cons_append]

/-! ### Replay loop structure -/

theorem replayLoop_append :
    ∀ (pre rest : List Event) (s : Store),
      replayLoop s (pre ++ rest) =
        match replayLoop s pre with
        | .done s2 => replayLoop s2 rest
        | .aborted er s2 => .aborted er s2
        | .blockedL s2 => .blockedL s2 := by
  intro pre
  induction pre with
  | nil => intro rest s; rfl
  | cons e es ih =>
      intro rest s
      rw [List.cons_append]
      simp only [replayLoop]
      cases applyEvent s e with
      | ok s2 => exact ih rest s2
      | err er s2 => rfl
      | blockedW s2 => rfl

theorem applyEvent_put {s : Store} {e : Event} (h : e.eventType = EventPut) :
    applyEvent s e = .ok (mapPut s e.key e.value) := by
  simp [applyEvent, h, Put]

theorem replayLoop_puts :
    ∀ (evs : List Event) (s : Store), (∀ e ∈ evs, e.eventType = EventPut) →
      replayLoop s evs = .done (foldPuts s evs) := by
  intro evs
  induction evs with
  | nil => intro s _; rfl
  | cons e es ih =>
      intro s h
      have he : e.eventType = EventPut := h e (List.mem_cons_self e es)
      simp only [replayLoop, applyEvent_put he, foldPuts, List.foldl_cons]
      have := ih (mapPut s e.key e.value) (fun x hx => h x (List.mem_cons_of_mem e hx))
      simpa [foldPuts] using this

theorem withSeqs_eventType :
    ∀ (evs : List Event) (last : Nat), (∀ e ∈ evs, e.eventType = EventPut) →
      ∀ e2 ∈ withSeqs last evs, e2.eventType = EventPut := by
  intro evs
  induction evs with
  | nil => intro last _ e2 h2; simp [withSeqs] at h2
  | cons e es ih =>
      intro last h e2 h2
      simp only [withSeqs, List.mem_cons] at h2
      rcases h2 with rfl | h2
      · exact h e (List.mem_cons_self e es)
      · exact ih (last + 1) (fun x hx => h x (List.mem_cons_of_mem e hx)) e2 h2

theorem foldPuts_withSeqs :
    ∀ (evs : List Event) (last : Nat) (s : Store),
      foldPuts s (withSeqs last evs) = foldPuts s evs := by
  intro evs
  induction evs with
  | nil => intro last s; rfl
  | cons e es ih =>
      intro last s
      simp only [withSeqs, foldPuts, List.foldl_cons]
      exact ih (last + 1) (mapPut s e.key e.value)

/-! ### Map lookup lemmas -/

theorem mapGet_mapDelete :
    ∀ (s : Store) (kd kq : String),
      mapGet (mapDelete s kd) kq = if kd = kq then none else mapGet s kq := by
  intro s
  induction s with
  | nil => intro kd kq; simp [mapDelete, mapGet]
  | cons p rest ih =>
      intro kd kq
      obtain ⟨a, b⟩ := p
      by_cases had : a = kd
      · subst had
        have hd : mapDelete ((a, b) :: rest) a = mapDelete rest a := by
          simp [mapDelete]
        rw [hd, ih a kq]
        by_cases haq : a = kq
        · simp [haq]
        · simp [haq, mapGet]
      · have hd : mapDelete ((a, b) :: rest) kd = (a, b) :: mapDelete rest kd := by
          simp [mapDelete, had]
        rw [hd]
        by_cases haq : a = kq
        · subst haq
          have hdq : ¬(kd = a) := fun hh => had hh.symm
          simp [mapGet, hdq]
        · simp only [mapGet, if_neg haq]
          exact ih kd kq

theorem mapGet_append :
    ∀ (xs ys : Store) (k : String),
      mapGet (xs ++ ys) k =
        match mapGet xs k with
        | some v => some v
        | none => mapGet ys k := by
  intro xs
  induction xs with
  | nil => intro ys k; rfl
  | cons p rest ih =>
      intro ys k
      obtain ⟨a, b⟩ := p
      by_cases h : a = k
      · simp [mapGet, h]
      · simp [mapGet, h, ih]

theorem mapGet_mapPut :
    ∀ (s : Store) (kp kq v : String),
      mapGet (mapPut s kp v) kq = if kp = kq then some v else mapGet s kq := by
  intro s kp kq v
  unfold mapPut
  rw [mapGet_append, mapGet_mapDelete]
  by_cases h : kp = kq
  · simp [h, mapGet]
  · simp only [if_neg h]
    cases mapGet s kq with
    | none => simp [mapGet, h]
    | some w => simp

/-! ### Write-path lemmas -/

theorem writePath_log_type_lt :
    ∀ (ops : List Op) (s : Store), ∀ e ∈ (writePath s ops).2, e.eventType < 256 := by
  intro ops
  induction ops with
  | nil => intro s e he; simp [writePath] at he
  | cons op ops ih =>
      intro s e he
      cases op with
      | put k v =>
          simp only [writePath, Put] at he
          rcases List.mem_cons.mp he with rfl | hm
          · simp [putEvent, EventPut]
          · exact ih _ e hm
      | del k =>
          cases hg : mapGet s k with
          | none =>
              simp only [writePath, Delete, hg] at he
              exact ih _ e he
          | some w =>
              simp [writePath, Delete, hg] at he
              rcases he with rfl | hm
              · simp [delEvent, EventDelete]
              · exact ih _ e hm

theorem writePath_log_good :
    ∀ (ops : List Op) (s : Store), (∀ op ∈ ops, goodOpB op = true) →
      ∀ e ∈ (writePath s ops).2, e.eventType = EventPut →
        goodTokB e.key = true ∧ goodTokB e.value = true := by
  intro ops
  induction ops with
  | nil => intro s _ e he _; simp [writePath] at he
  | cons op ops ih =>
      intro s hops e he htype
      cases op with
      | put k v =>
          have hop : goodOpB (Op.put k v) = true := hops _ (List.mem_cons_self _ _)
          simp only [goodOpB, Bool.and_eq_true] at hop
          simp only [writePath, Put] at he
          rcases List.mem_cons.mp he with rfl | hm
          · exact ⟨hop.1, hop.2⟩
          · exact ih _ (fun x hx => hops x (List.mem_cons_of_mem _ hx)) e hm htype
      | del k =>
          cases hg : mapGet s k with
          | none =>
              simp only [writePath, Delete, hg] at he
              exact ih _ (fun x hx => hops x (List.mem_cons_of_mem _ hx)) e he htype
          | some w =>
              simp [writePath, Delete, hg] at he
              rcases he with rfl | hm
              · simp [delEvent, EventDelete, EventPut] at htype
              · exact ih _ (fun x hx => hops x (List.mem_cons_of_mem _ hx)) e hm htype

theorem writePath_store_of_puts :
    ∀ (ops : List Op) (s : Store),
      ((writePath s ops).2.all fun e => e.eventType == EventPut) = true →
      (writePath s ops).1 = foldPuts s (writePath s ops).2 := by
  intro ops
  induction ops with
  | nil => intro s _; rfl
  | cons op ops ih =>
      intro s hall
      cases op with
      | put k v =>
          simp only [writePath, Put] at hall ⊢
          simp only [List.all_cons, Bool.and_eq_true] at hall
          simp only [foldPuts, List.foldl_cons, putEvent]
          have := ih (mapPut s k v) hall.2
          simpa [foldPuts] using this
      | del k =>
          cases hg : mapGet s k with
          | none =>
              simp only [writePath, Delete, hg] at hall ⊢
              exact ih s hall
          | some w =>
              simp [writePath, Delete, hg, delEvent, EventDelete, EventPut] at hall

theorem writePath_absent :
    ∀ (ops : List Op) (s : Store) (k : String),
      mapGet s k = none → (ops.all fun op => !putsKey op k) = true →
      mapGet (writePath s ops).1 k = none := by
  intro ops
  induction ops with
  | nil => intro s k h _; simpa [writePath] using h
  | cons op ops ih =>
      intro s k h hall
      simp only [List.all_cons, Bool.and_eq_true] at hall
      cases op with
      | put k2 v =>
          have hne : ¬(k2 = k) := by
            have h2 := hall.1
            simpa [putsKey] using h2
          simp only [writePath, Put]
          apply ih
          · rw [mapGet_mapPut]
            simp [hne, h]
          · exact hall.2
      | del k2 =>
          cases hg : mapGet s k2 with
          | none =>
              simp only [writePath, Delete, hg]
              exact ih _ _ h hall.2
          | some w =>
              simp only [writePath, Delete, hg, if_pos rfl]
              apply ih
              · rw [mapGet_mapDelete]
                by_cases hdq : k2 = k <;> simp [hdq, h]
              · exact hall.2

/-! ## Claims -/

/-- C1 (corrected), counterexample: after `Put("a","1")` then `Delete("a")`
through the public write path, the log's second line is `2 TAB 1 TAB a TAB`
(the Delete Event has an empty value), which `Sscanf` fails to parse, so
replay aborts with a parse error while the store still holds `a ↦ 1`; the
original store is empty. Replay therefore does not reproduce the original
contents. -/
theorem c1_counterexample :
    pipeline [Op.put "a" "1", Op.del "a"] true
        = .abort (.readFail (.parseFail ("2\t1\ta\t".data) .eofTok)) [("a", "1")] ∧
    (writePath [] [Op.put "a" "1", Op.del "a"]).1 = [] := by
  constructor
  · decide
  · decide

/-- C1 (corrected): store-log equivalence holds for write sequences whose
operations only log Put Events (no Delete ever succeeds) with nonempty,
whitespace-free keys and values, and whose log fits the `uint64` sequence
space; replaying the produced log into a fresh empty store then terminates
and rebuilds exactly the original store's final contents (with the
coordinator's final channel draw taken on the error channel). -/
theorem c1_amended_store_log_equivalence (ops : List Op)
    (hgood : ∀ op ∈ ops, goodOpB op = true)
    (hnodel : ((writePath [] ops).2.all fun e => e.eventType == EventPut) = true)
    (hlen : (writePath [] ops).2.length < 2 ^ 64) :
    pipeline ops true = .success (writePath [] ops).1 := by
  have htypes : ∀ e ∈ (writePath [] ops).2, e.eventType = EventPut := by
    intro e he
    have h2 := List.all_eq_true.mp hnodel e he
    simpa using h2
  have hgoods : ∀ e ∈ (writePath [] ops).2,
      e.eventType < 256 ∧ goodTokB e.key = true ∧ goodTokB e.value = true := by
    intro e he
    exact ⟨writePath_log_type_lt ops [] e he,
      writePath_log_good ops [] hgood e he (htypes e he)⟩
  have hkv : ∀ e ∈ (writePath [] ops).2, goodTokB e.key = true ∧ goodTokB e.value = true :=
    fun e he => (hgoods e he).2
  have hrun : Run 0 (writePath [] ops).2
      = ((writePath [] ops).2.length, linesFlat 0 (writePath [] ops).2) := by
    have h2 := Run_spec (writePath [] ops).2 0 (by omega)
    simpa using h2
  have hfl : fileLines (linesFlat 0 (writePath [] ops).2)
      = bodiesList 0 (writePath [] ops).2 :=
    fileLines_linesFlat _ 0 hkv
  have hread : ReadEvents 0 (bodiesList 0 (writePath [] ops).2)
      = (withSeqs 0 (writePath [] ops).2, none) :=
    ReadEvents_bodiesList _ 0 (by omega) hgoods
  have hloop : replayLoop [] (withSeqs 0 (writePath [] ops).2)
      = .done (foldPuts [] (withSeqs 0 (writePath [] ops).2)) :=
    replayLoop_puts _ [] (withSeqs_eventType _ 0 htypes)
  have hstart : pipeline ops true
      = replayCoordinator []
          (ReadEvents 0 (fileLines (Run 0 (writePath [] ops).2).2)).1
          ((ReadEvents 0 (fileLines (Run 0 (writePath [] ops).2).2)).2.map GoErr.readFail)
          true := rfl
  rw [hstart]
  simp only [hrun]
  rw [hfl]
  simp only [hread, Option.map_none']
  simp only [replayCoordinator, hloop]
  rw [foldPuts_withSeqs]
  rw [← writePath_store_of_puts ops [] hnodel]
  simp

/-- C1 witness: a concrete delete-free run (`Put a 1; Put b 2; Delete c`
where `c` is absent, so nothing is logged for it) satisfies the hypotheses,
and replay rebuilds exactly the final store. -/
theorem c1_witness :
    (∀ op ∈ ([Op.put "a" "1", Op.put "b" "2", Op.del "c"] : List Op), goodOpB op = true) ∧
    ((writePath [] [Op.put "a" "1", Op.put "b" "2", Op.del "c"]).2.all
        fun e => e.eventType == EventPut) = true ∧
    (writePath [] [Op.put "a" "1", Op.put "b" "2", Op.del "c"]).2.length < 2 ^ 64 ∧
    pipeline [Op.put "a" "1", Op.put "b" "2", Op.del "c"] true
      = .success (writePath [] [Op.put "a" "1", Op.put "b" "2", Op.del "c"]).1 :=
  ⟨by decide, by decide, by decide,
    c1_amended_store_log_equivalence _ (by decide) (by decide) (by decide)⟩

/-- C2 (corrected), counterexample: replaying a single Delete Event for an
absent key makes the coordinator abort with `ErrorNoSuchKey` — the "key
absent" mismatch is not tolerated. -/
theorem c2_counterexample :
    replayCoordinator [] [⟨1, EventDelete, "a", "x"⟩] none true
      = .abort .noSuchKey [] := by decide

/-- C2 (corrected): during replay a Delete Event for an absent key aborts
replay with the no-such-key error (not tolerated silently); a Delete Event
for a present key is applied as a removal but then blocks on the logger's
nil events channel; any Event whose kind is neither Put nor Delete is a
fatal replay error. -/
theorem c2_amended_replay_delete_semantics
    (s : Store) (e : Event) (rest : List Event) (terr : Option GoErr) (sched : Bool) :
    (e.eventType = EventDelete → mapGet s e.key = none →
      replayCoordinator s (e :: rest) terr sched = .abort .noSuchKey s) ∧
    (e.eventType = EventDelete → ∀ w, mapGet s e.key = some w →
      replayCoordinator s (e :: rest) terr sched = .blocked (mapDelete s e.key)) ∧
    (¬(e.eventType = EventDelete) → ¬(e.eventType = EventPut) →
      replayCoordinator s (e :: rest) terr sched
        = .abort (.unknownEventType e.eventType) s) := by
  refine ⟨?_, ?_, ?_⟩
  · intro ht hget
    have hne : ¬(e.eventType = EventPut) := by rw [ht]; decide
    simp [replayCoordinator, replayLoop, applyEvent, hne, ht, Delete, hget,
      show ¬(EventDelete = EventPut) by decide]
  · intro ht w hget
    have hne : ¬(e.eventType = EventPut) := by rw [ht]; decide
    simp [replayCoordinator, replayLoop, applyEvent, hne, ht, Delete, hget,
      show ¬(EventDelete = EventPut) by decide]
  · intro ht hp
    simp [replayCoordinator, replayLoop, applyEvent, ht, hp]

/-- C2 witness: the three cases at concrete inputs — absent-key Delete
aborts, present-key Delete removes then blocks, unknown kind 7 aborts. -/
theorem c2_witness :
    replayCoordinator [("a", "1")] [⟨3, EventDelete, "z", ""⟩] none true
        = .abort .noSuchKey [("a", "1")] ∧
    replayCoordinator [("a", "1")] [⟨3, EventDelete, "a", ""⟩] none true
        = .blocked (mapDelete [("a", "1")] "a") ∧
    replayCoordinator [("a", "1")] [⟨3, 7, "q", ""⟩] none true
        = .abort (.unknownEventType 7) [("a", "1")] :=
  ⟨(c2_amended_replay_delete_semantics [("a", "1")] ⟨3, EventDelete, "z", ""⟩ [] none true).1
      rfl (by decide),
   (c2_amended_replay_delete_semantics [("a", "1")] ⟨3, EventDelete, "a", ""⟩ [] none true).2.1
      rfl "1" (by decide),
   (c2_amended_replay_delete_semantics [("a", "1")] ⟨3, 7, "q", ""⟩ [] none true).2.2
      (by decide) (by decide)⟩

/-- C3 (corrected), counterexample: with an empty event stream and a clean
close (no error anywhere), the final `select` can draw the closed events
channel, receive the zero Event, and abort startup with
`unknown event type: 0` instead of calling `Run()`. -/
theorem c3_counterexample :
    replayCoordinator [] [] none false = .abort (.unknownEventType 0) [] := by decide

/-- C3 (corrected): if the loop applies all streamed Events cleanly, then an
error left on the error channel always aborts startup (though when the final
draw takes the closed events channel the reported error is the fabricated
`unknown event type: 0`); on a clean close startup succeeds and `Run()` is
called only when the final draw takes the error channel — the other draw
aborts startup. -/
theorem c3_amended_coordinator_outcomes
    (s s2 : Store) (evs : List Event) (er : GoErr)
    (hloop : replayLoop s evs = .done s2) :
    (∀ sched, replayCoordinator s evs (some er) sched
        = .abort (if sched then er else .unknownEventType 0) s2) ∧
    replayCoordinator s evs none true = .success s2 := by
  constructor
  · intro sched
    simp [replayCoordinator, hloop]
  · simp [replayCoordinator, hloop]

/-- C3 witness: one Put Event applied cleanly, then each of the three
endgame situations at concrete inputs. -/
theorem c3_witness :
    replayCoordinator [] [⟨1, EventPut, "a", "1"⟩] (some .noSuchKey) true
        = .abort .noSuchKey [("a", "1")] ∧
    replayCoordinator [] [⟨1, EventPut, "a", "1"⟩] (some .noSuchKey) false
        = .abort (.unknownEventType 0) [("a", "1")] ∧
    replayCoordinator [] [⟨1, EventPut, "a", "1"⟩] none true = .success [("a", "1")] := by
  have h := c3_amended_coordinator_outcomes [] [("a", "1")] [⟨1, EventPut, "a", "1"⟩]
    .noSuchKey (by decide)
  refine ⟨?_, ?_, h.2⟩
  · have h1 := h.1 true
    simpa using h1
  · have h2 := h.1 false
    simpa using h2

/-- C4 (confirmed): file-backend replay enforces strictly increasing
sequence numbers. If the reader has cleanly accepted `evs` from the lines
`pre` (its running `lastSequence`, initially the logger's, is now
`lastAfter last evs`), and the next line parses to an Event whose sequence
does not strictly exceed that value, then replay halts at that record,
reports the malformed-record error, and does not emit the record. -/
theorem c4_sequence_monotonic_enforcement
    (pre : List (List Char)) (last : Nat) (evs : List Event)
    (l : List Char) (e : Event) (rest : List (List Char))
    (hpre : ReadEvents last pre = (evs, none))
    (hparse : parseLine l = .ok e)
    (hseq : e.sequence ≤ lastAfter last evs) :
    ReadEvents last (pre ++ l :: rest) = (evs, some (.seqNotIncreasing l)) := by
  rw [ReadEvents_split pre last evs hpre (l :: rest)]
  have hne : ¬(l = eofChars) := by
    intro h
    have heval : parseLine eofChars = .error .noNum := rfl
    rw [h, heval] at hparse
    exact Except.noConfusion hparse
  simp only [ReadEvents, if_neg hne, hparse, if_pos hseq]
  simp

/-- C4 witness: a two-line log whose second line repeats sequence 1 (from a
fresh logger, `lastSequence` initially 0): replay accepts the first record
and halts at the second with the sequence error. -/
theorem c4_witness :
    ReadEvents 0 ["1\t2\ta\tb".data] = ([⟨1, 2, "a", "b"⟩], none) ∧
    parseLine ("1\t2\ta\tb".data) = .ok ⟨1, 2, "a", "b"⟩ ∧
    (⟨1, 2, "a", "b"⟩ : Event).sequence ≤ lastAfter 0 [⟨1, 2, "a", "b"⟩] ∧
    ReadEvents 0 (["1\t2\ta\tb".data] ++ "1\t2\ta\tb".data :: []) =
      ([⟨1, 2, "a", "b"⟩], some (.seqNotIncreasing ("1\t2\ta\tb".data))) :=
  ⟨by decide, rfl, by decide,
    c4_sequence_monotonic_enforcement _ 0 _ _ _ _ (by decide) rfl (by decide)⟩

/-- C5 (corrected), counterexample: a Delete Event (empty value) serializes
to a line whose parse fails (`%v` finds end of input), so the round trip
does not hold for every Event. -/
theorem c5_counterexample :
    parseLine (serializeBody 7 EventDelete "mykey" "") = .error .eofTok := rfl

/-- C5 (corrected): the round trip holds for every Event whose key and value
are nonempty and contain no whitespace: serializing it with the
backend-assigned sequence and parsing the line back yields an Event that is
field-wise identical (kind, key, value), with the assigned sequence rather
than the one carried in the Event struct. -/
theorem c5_amended_round_trip (e : Event) (assigned : Nat)
    (h1 : assigned < 2 ^ 64) (h2 : e.eventType < 256)
    (hk : goodTokB e.key = true) (hv : goodTokB e.value = true) :
    parseLine (serializeBody assigned e.eventType e.key e.value)
      = .ok ⟨assigned, e.eventType, e.key, e.value⟩ :=
  parseLine_serializeBody h1 h2 hk hv

/-- C5 witness: the Event `⟨9, Put, "k", "v"⟩` written with assigned
sequence 5 parses back with kind, key, value intact and sequence 5. -/
theorem c5_witness :
    (5 : Nat) < 2 ^ 64 ∧ (⟨9, EventPut, "k", "v"⟩ : Event).eventType < 256 ∧
    goodTokB (⟨9, EventPut, "k", "v"⟩ : Event).key = true ∧
    goodTokB (⟨9, EventPut, "k", "v"⟩ : Event).value = true ∧
    parseLine (serializeBody 5 (⟨9, EventPut, "k", "v"⟩ : Event).eventType
        (⟨9, EventPut, "k", "v"⟩ : Event).key (⟨9, EventPut, "k", "v"⟩ : Event).value)
      = .ok ⟨5, (⟨9, EventPut, "k", "v"⟩ : Event).eventType,
          (⟨9, EventPut, "k", "v"⟩ : Event).key, (⟨9, EventPut, "k", "v"⟩ : Event).value⟩ :=
  ⟨by decide, by decide, by decide, by decide,
    c5_amended_round_trip ⟨9, EventPut, "k", "v"⟩ 5 (by decide) (by decide)
      (by decide) (by decide)⟩

/-- C6 (confirmed): as long as the `uint64` sequence space is not exhausted,
the appender increments `lastSequence` by exactly 1 per drained Event and
writes, in drain order, exactly one newline-terminated line per Event of the
form `sequence TAB kind TAB key TAB value`, with the sequences dense and
contiguous from `lastSequence + 1` and ignoring the Event's own `Sequence`
field (see `linesFlat`). -/
theorem c6_appender_assigns_dense_sequences
    (evs : List Event) (lastSequence : Nat)
    (h : lastSequence + evs.length < 2 ^ 64) :
    Run lastSequence evs = (lastSequence + evs.length, linesFlat lastSequence evs) :=
  Run_spec evs lastSequence h

/-- C6 witness: one queued Event carrying `Sequence = 99` is written with
assigned sequence 1 from `lastSequence = 0`. -/
theorem c6_witness :
    (0 : Nat) + ([⟨99, EventPut, "k", "v"⟩] : List Event).length < 2 ^ 64 ∧
    Run 0 [⟨99, EventPut, "k", "v"⟩]
      = (0 + ([⟨99, EventPut, "k", "v"⟩] : List Event).length,
          linesFlat 0 [⟨99, EventPut, "k", "v"⟩]) :=
  ⟨by decide, c6_appender_assigns_dense_sequences _ _ (by decide)⟩

/-- C7 (confirmed): for any key never put by the operation sequence, `Get`
returns the typed `ErrorNoSuchKey` and `Delete` returns the same not-found
condition leaving the store untouched (same contents, hence same size),
whether or not the appender is running. -/
theorem c7_not_found_idempotent
    (ops : List Op) (k : String) (runActive : Bool)
    (h : (ops.all fun op => !putsKey op k) = true) :
    Get (writePath [] ops).1 k = .error .noSuchKey ∧
    Delete runActive (writePath [] ops).1 k = ((writePath [] ops).1, .notFound) := by
  have habs : mapGet (writePath [] ops).1 k = none :=
    writePath_absent ops [] k rfl h
  constructor
  · simp [Get, habs]
  · simp [Delete, habs]

/-- C7 witness: after `Put("b","1")`, the never-written key `"a"` gets the
not-found condition from both `Get` and `Delete`, with the store unchanged. -/
theorem c7_witness :
    (([Op.put "b" "1"] : List Op).all fun op => !putsKey op "a") = true ∧
    Get (writePath [] [Op.put "b" "1"]).1 "a" = .error .noSuchKey ∧
    Delete true (writePath [] [Op.put "b" "1"]).1 "a"
      = ((writePath [] [Op.put "b" "1"]).1, .notFound) := by
  have h := c7_not_found_idempotent [Op.put "b" "1"] "a" true (by decide)
  exact ⟨by decide, h.1, h.2⟩

/-- C8 (confirmed): the PUT handler responds 500 on a body-read error
without touching store or logger, and on success calls the store put and
then logs the same key and value, responding 201. (The store-put-error
branch responds 500 but is unreachable, see C10.) -/
theorem c8_put_handler_contract (key : String) (s : Store) (msg v : String) :
    keyValuePutHandler (.error msg) key s = .bodyError s ∧
    statusOf (keyValuePutHandler (.error msg) key s) = 500 ∧
    keyValuePutHandler (.ok v) key s = .created (mapPut s key v) [putEvent key v] ∧
    statusOf (keyValuePutHandler (.ok v) key s) = 201 := by
  refine ⟨rfl, rfl, ?_, ?_⟩ <;> rfl

/-- C9 (confirmed): if replay has cleanly applied a prefix and then receives
a Delete Event whose key is present in the rebuilt store, the store `Delete`
removes the key and then calls `WriteDelete`, whose send on the nil events
channel (Run has not been called yet) blocks forever: replay never
terminates, regardless of what follows on either channel. -/
theorem c9_replay_delete_blocks
    (s s2 : Store) (pre rest : List Event) (k v2 : String) (seq : Nat)
    (terr : Option GoErr) (sched : Bool) (w : String)
    (hpre : replayLoop s pre = .done s2)
    (hget : mapGet s2 k = some w) :
    replayCoordinator s (pre ++ ⟨seq, EventDelete, k, v2⟩ :: rest) terr sched
      = .blocked (mapDelete s2 k) := by
  have happ : applyEvent s2 ⟨seq, EventDelete, k, v2⟩ = .blockedW (mapDelete s2 k) := by
    simp [applyEvent, EventDelete, EventPut, Delete, hget]
  have hl : replayLoop s (pre ++ ⟨seq, EventDelete, k, v2⟩ :: rest)
      = .blockedL (mapDelete s2 k) := by
    rw [replayLoop_append, hpre]
    simp [replayLoop, happ]
  simp [replayCoordinator, hl]

/-- C9 witness: the log `Put a 1; Delete a` (as an event stream that parsed)
blocks replay forever after removing `a`. -/
theorem c9_witness :
    replayCoordinator [] ([⟨1, EventPut, "a", "1"⟩] ++ ⟨2, EventDelete, "a", "x"⟩ :: [])
        none true
      = .blocked (mapDelete [("a", "1")] "a") :=
  c9_replay_delete_blocks [] [("a", "1")] [⟨1, EventPut, "a", "1"⟩] [] "a" "x" 2 none true
    "1" (by decide) (by decide)

/-- C10 (confirmed): the store `Put` returns a nil error for every key and
value, so the PUT handler's store-put-error branch (500) is unreachable. -/
theorem c10_put_always_succeeds (s : Store) (k v : String) (body : Except String String) :
    (Put s k v).1 = .ok () ∧ isPutError (keyValuePutHandler body k s) = false := by
  constructor
  · rfl
  · cases body <;> rfl

end CloudGo
